import Mathlib

/-!
Shallow embedding of the customer-support agent's core logic: the text
processing utilities, knowledge-base article search, ticket retrieval and
search, and the agent's response-composition fragment for knowledge-base
results. Text is modelled as `List Char`; scores as `ℚ`; the dict-shaped
records as structures. Stateful stores are passed explicitly.
-/

abbrev Str := List Char

/-- Python `needle in haystack` substring test on strings. -/
def substr (l₁ l₂ : Str) : Bool := decide (l₁ <:+: l₂)

/-- A regex `\w` word character (ASCII model): alphanumeric or underscore. -/
def isWordChar (c : Char) : Bool := c.isAlphanum || c = '_'

/-- Auxiliary splitter: maximal runs of characters satisfying `p`
(`acc` holds the current run, reversed). -/
def splitRunsAux (p : Char → Bool) : List Char → List Char → List (List Char)
  | [], acc => if acc.isEmpty then [] else [acc.reverse]
  | c :: cs, acc =>
    if p c then splitRunsAux p cs (c :: acc)
    else if acc.isEmpty then splitRunsAux p cs []
    else acc.reverse :: splitRunsAux p cs []

/-- Maximal runs of characters satisfying `p`; models `re.findall(r'\b\w+\b', ·)`
(with `p := isWordChar`) and the `\s+` complement split used by `clean_text`. -/
def splitRuns (p : Char → Bool) (l : List Char) : List (List Char) :=
  splitRunsAux p l []

/-- First-occurrence deduplication (Python dict/Counter insertion order). -/
def uniqAux : List Str → List Str → List Str
  | [], _ => []
  | x :: xs, seen => if x ∈ seen then uniqAux xs seen else x :: uniqAux xs (x :: seen)

def uniqueFirst (l : List Str) : List Str := uniqAux l []

/-- Python `sep.join(parts)` for a single-character separator. -/
def joinSep (sep : Char) : List Str → Str
  | [] => []
  | t :: ts =>
    match ts with
    | [] => t
    | _ :: _ => t ++ sep :: joinSep sep ts

/-- Sort key comparison for a stable descending sort by `key`
(Python `list.sort(key=key, reverse=True)` uses `insertionSort` with this
relation, which is stable). -/
abbrev keyRelDesc {α β : Type} [LinearOrder β] (key : α → β) (a b : α) : Prop :=
  key b ≤ key a

/-- Strict lexicographic order on index-tagged elements: score descending,
original index ascending. Used to state that the stable sort keeps ties in
original order. -/
abbrev lexIdxRel {α β : Type} [LinearOrder β] (key : α → β) (p q : Nat × α) : Prop :=
  key q.2 < key p.2 ∨ (key p.2 = key q.2 ∧ p.1 ≤ q.1)

/-- The fixed stop-word set of `TextProcessor.extract_keywords`. -/
def stop_words : List Str :=
  (["the", "is", "at", "which", "on", "a", "an", "as", "are",
    "was", "were", "been", "be", "have", "has", "had", "do",
    "does", "did", "will", "would", "should", "could", "may",
    "might", "must", "can", "this", "that", "these", "those"]).map String.toList

/-- `TextProcessor.extract_keywords`: the filtered token list (lowercased,
word-boundary tokenized, length/stop-word filtered) before deduplication. -/
def keyword_tokens (text : Str) (minLength : Nat) : List Str :=
  (splitRuns isWordChar (text.map Char.toLower)).filter
    (fun w => decide (minLength ≤ w.length ∧ w ∉ stop_words))

/-- `TextProcessor.extract_keywords`: unique keywords ordered by descending
frequency (`Counter.most_common`), ties kept in first-occurrence order. -/
def extract_keywords (text : Str) (minLength : Nat := 3) : List Str :=
  let keywords := keyword_tokens text minLength
  (uniqueFirst keywords).insertionSort (keyRelDesc (fun w => keywords.count w))

/-- `TextProcessor.calculate_similarity`: Jaccard index of the two texts'
keyword sets; 0.0 when either set is empty. -/
def calculate_similarity (text1 text2 : Str) : ℚ :=
  let words1 := (extract_keywords text1).toFinset
  let words2 := (extract_keywords text2).toFinset
  if words1 = ∅ ∨ words2 = ∅ then 0
  else
    let inter := words1 ∩ words2
    let uni := words1 ∪ words2
    if uni = ∅ then 0 else (inter.card : ℚ) / (uni.card : ℚ)

/-- `TextProcessor.clean_text`: collapse whitespace runs to single spaces and
trim the ends (`re.sub(r'\s+', ' ', text).strip()`). -/
def clean_text (text : Str) : Str :=
  joinSep ' ' (splitRuns (fun c => !c.isWhitespace) text)

/-- Anchored matcher for `[A-Z]+-\d+` (case-insensitive, greedy, as matched by
`re` at a fixed start position). -/
def tryJira (l : Str) : Option Str :=
  if (l.takeWhile Char.isAlpha).isEmpty then none
  else
    match l.dropWhile Char.isAlpha with
    | '-' :: rest =>
      if (rest.takeWhile Char.isDigit).isEmpty then none
      else some (l.takeWhile Char.isAlpha ++ '-' :: rest.takeWhile Char.isDigit)
    | _ => none

/-- Anchored matcher for `#[A-Z]+-\d+`. -/
def tryHashJira (l : Str) : Option Str :=
  match l with
  | '#' :: rest => (tryJira rest).map (fun m => '#' :: m)
  | _ => none

/-- Anchored matcher for `TICKET-\d+` (case-insensitive). -/
def tryTicketNum (l : Str) : Option Str :=
  if (l.take 7).map Char.toLower = "ticket-".toList then
    if ((l.drop 7).takeWhile Char.isDigit).isEmpty then none
    else some (l.take 7 ++ (l.drop 7).takeWhile Char.isDigit)
  else none

/-- Anchored matcher for `#\d+`. -/
def tryHashNum (l : Str) : Option Str :=
  match l with
  | '#' :: rest =>
    if (rest.takeWhile Char.isDigit).isEmpty then none
    else some ('#' :: rest.takeWhile Char.isDigit)
  | _ => none

/-- `re.search` semantics: the match at the leftmost position where the
anchored matcher succeeds. -/
def findFirstMatch (f : Str → Option Str) : Str → Option Str
  | [] => none
  | c :: cs =>
    match f (c :: cs) with
    | some m => some m
    | none => findFirstMatch f cs

/-- `TextProcessor.extract_ticket_reference`: try the four patterns in fixed
priority order; on the first pattern that matches, return its leftmost match
with `#` removed, uppercased; otherwise the empty string. -/
def extract_ticket_reference (text : Str) : Str :=
  match findFirstMatch tryJira text with
  | some m => (m.filter (fun c => c != '#')).map Char.toUpper
  | none =>
    match findFirstMatch tryHashJira text with
    | some m => (m.filter (fun c => c != '#')).map Char.toUpper
    | none =>
      match findFirstMatch tryTicketNum text with
      | some m => (m.filter (fun c => c != '#')).map Char.toUpper
      | none =>
        match findFirstMatch tryHashNum text with
        | some m => (m.filter (fun c => c != '#')).map Char.toUpper
        | none => []

/-- A knowledge-base article record. -/
structure Article where
  id : Str
  title : Str
  content : Str
  category : Str
  tags : List Str
  keywords : List Str
deriving DecidableEq

/-- An article paired with the transient `relevance_score` attached by search
to a per-result copy. -/
structure ScoredArticle where
  article : Article
  score : ℚ
deriving DecidableEq

/-- The configured search options (`Config.MAX_SEARCH_RESULTS`,
`Config.SIMILARITY_THRESHOLD`). -/
structure Config where
  maxSearchResults : Nat
  similarityThreshold : ℚ

/-- The configuration defaults: 5 results, threshold 0.7. -/
def defaultConfig : Config := ⟨5, 7/10⟩

/-- The composite relevance score computed by `KnowledgeBase.search` for one
article: title substring +10, content Jaccard similarity x5, keyword-overlap
share x3, tag substring +2, category substring +1. -/
def article_score (query : Str) (a : Article) : ℚ :=
  let query_lower := query.map Char.toLower
  let query_keywords := (extract_keywords query).toFinset
  let article_keywords := a.keywords.toFinset
  (if substr query_lower (a.title.map Char.toLower) then 10 else 0)
  + calculate_similarity query (a.title ++ ' ' :: a.content) * 5
  + (if query_keywords.Nonempty ∧ article_keywords.Nonempty then
       ((query_keywords ∩ article_keywords).card : ℚ)
         / ((max query_keywords.card 1 : Nat) : ℚ) * 3
     else 0)
  + (if substr query_lower (joinSep ' ' (a.tags.map (List.map Char.toLower))) then 2 else 0)
  + (if substr query_lower (a.category.map Char.toLower) then 1 else 0)

/-- `KnowledgeBase.search`: empty query short-circuits; a falsy (absent or 0)
`max_results` falls back to the configured default; articles with positive
score are copied and tagged with their score, stable-sorted descending,
filtered by the similarity threshold and truncated. -/
def KnowledgeBase.search (cfg : Config) (articles : List Article) (query : Str)
    (maxResults : Option Nat) : List ScoredArticle :=
  if query.isEmpty then []
  else
    let mr := match maxResults with
      | none => cfg.maxSearchResults
      | some k => if k = 0 then cfg.maxSearchResults else k
    let results := articles.filterMap (fun a =>
      let s := article_score query a
      if 0 < s then some ⟨a, s⟩ else none)
    let sorted := results.insertionSort (keyRelDesc ScoredArticle.score)
    let filtered := sorted.filter (fun r => decide (cfg.similarityThreshold ≤ r.score))
    filtered.take mr

/-- Specification-side rendering of `KnowledgeBase.search` in which the sort
step is replaced by the strict lexicographic sort on index-tagged results
(score descending, insertion index ascending) — the spec's words for
"descending score, ties keep original insertion-relative order". -/
def KnowledgeBase.search_spec_ordered (cfg : Config) (articles : List Article)
    (query : Str) (maxResults : Option Nat) : List ScoredArticle :=
  if query.isEmpty then []
  else
    let mr := match maxResults with
      | none => cfg.maxSearchResults
      | some k => if k = 0 then cfg.maxSearchResults else k
    let results := articles.filterMap (fun a =>
      let s := article_score query a
      if 0 < s then some ⟨a, s⟩ else none)
    let sorted := (results.enum.insertionSort (lexIdxRel ScoredArticle.score)).map Prod.snd
    let filtered := sorted.filter (fun r => decide (cfg.similarityThreshold ≤ r.score))
    filtered.take mr

/-- The article record built by `KnowledgeBase.add_article`: sequential id
`KB-<count+1>`, keywords derived from `title + " " + content`. -/
def KnowledgeBase.make_article (articles : List Article) (title content : Str)
    (category : Str) (tags : List Str) : Article :=
  { id := "KB-".toList ++ (Nat.repr (articles.length + 1)).toList
    title := title
    content := content
    category := category
    tags := tags
    keywords := extract_keywords (title ++ ' ' :: content) }

/-- `KnowledgeBase.add_article`: append the new article to the collection. -/
def KnowledgeBase.add_article (articles : List Article) (title content : Str)
    (category : Str := "general".toList) (tags : List Str := []) : List Article :=
  articles ++ [KnowledgeBase.make_article articles title content category tags]

/-- `KnowledgeBase.get_all_articles`: a snapshot copy of the collection
(value-equal to the store). -/
def KnowledgeBase.get_all_articles (articles : List Article) : List Article :=
  articles

/-- `KnowledgeBase.search` as a state transformer on the article store: the
method reads `self._articles` but never assigns it, so the store component
passes through unchanged. -/
def KnowledgeBase.search_with_state (cfg : Config) (articles : List Article)
    (query : Str) (maxResults : Option Nat) : List ScoredArticle × List Article :=
  (KnowledgeBase.search cfg articles query maxResults, articles)

/-- A ticket record (the fields used by lookup and search). -/
structure Ticket where
  id : Str
  title : Str
  description : Str
  status : Str
  priority : Str
deriving DecidableEq

/-- A ticket paired with the transient `match_score` attached by ticket
search. -/
structure ScoredTicket where
  ticket : Ticket
  score : ℚ
deriving DecidableEq

/-- The three seed tickets written by `_initialize_local_tickets`. -/
def sample_ticket_1 : Ticket :=
  { id := "PROJ-1001".toList
    title := "Unable to login to application".toList
    description := "User is experiencing login issues with error message 'Invalid credentials'".toList
    status := "Open".toList
    priority := "High".toList }

def sample_ticket_2 : Ticket :=
  { id := "PROJ-1002".toList
    title := "Feature request: Add dark mode".toList
    description := "Customer requests dark mode theme for better visibility".toList
    status := "In Progress".toList
    priority := "Medium".toList }

def sample_ticket_3 : Ticket :=
  { id := "PROJ-1003".toList
    title := "Payment processing error".toList
    description := "Transaction failed with error code 500. Customer unable to complete purchase.".toList
    status := "Resolved".toList
    priority := "Critical".toList }

def sample_tickets : List Ticket := [sample_ticket_1, sample_ticket_2, sample_ticket_3]

/-- The composite score computed by `TicketRetriever.search_tickets` for one
ticket: id substring +10, title substring +5, description substring +2,
Jaccard similarity with `title + " " + description` x3. -/
def ticket_score (query : Str) (t : Ticket) : ℚ :=
  let query_lower := query.map Char.toLower
  let title := t.title.map Char.toLower
  let descr := t.description.map Char.toLower
  let tid := t.id.map Char.toLower
  (if substr query_lower tid then 10 else 0)
  + (if substr query_lower title then 5 else 0)
  + (if substr query_lower descr then 2 else 0)
  + calculate_similarity query (title ++ ' ' :: descr) * 3

/-- `TicketRetriever.search_tickets`: keep tickets with positive score
(no similarity-threshold filter), stable-sort descending, truncate. -/
def TicketRetriever.search_tickets (tickets : List Ticket) (query : Str)
    (maxResults : Nat := 10) : List ScoredTicket :=
  let matching := tickets.filterMap (fun t =>
    let s := ticket_score query t
    if 0 < s then some ⟨t, s⟩ else none)
  (matching.insertionSort (keyRelDesc ScoredTicket.score)).take maxResults

/-- The nested remote payload shape used by `_transform_jira_response`. -/
structure JiraIssue where
  key : Str
  summary : Str
  description : Str
  statusName : Str
  priorityName : Str

/-- `TicketRetriever._transform_jira_response`. -/
def TicketRetriever.transform_jira_response (j : JiraIssue) : Ticket :=
  { id := j.key
    title := j.summary
    description := j.description
    status := j.statusName
    priority := j.priorityName }

/-- Outcome of the single remote HTTP request: a response with a status code,
or a transport error (`requests.exceptions.RequestException`). -/
inductive ApiResult where
  | httpResponse (status : Nat) (body : JiraIssue)
  | requestError

/-- Python truthiness test of `not self.username or not self.api_token`:
a credential is falsy when absent or the empty string. -/
def credentials_falsy (username apiToken : Option Str) : Bool :=
  username.isNone || username == some [] || apiToken.isNone || apiToken == some []

/-- `TicketRetriever._fetch_ticket_from_api`: missing credentials, a non-200
status and a transport error all yield `none`; a 200 response is transformed. -/
def TicketRetriever.fetch_ticket_from_api (username apiToken : Option Str)
    (remote : Str → ApiResult) (ticketId : Str) : Option Ticket :=
  if credentials_falsy username apiToken then none
  else
    match remote ticketId with
    | .httpResponse status body =>
      if status = 200 then some (TicketRetriever.transform_jira_response body) else none
    | .requestError => none

/-- `TicketRetriever._get_ticket_from_local`: first ticket whose uppercased id
equals the (already normalized) requested id. -/
def TicketRetriever.get_ticket_from_local (tickets : List Ticket) (ticketId : Str) :
    Option Ticket :=
  tickets.find? (fun t => t.id.map Char.toUpper == ticketId)

/-- `TicketRetriever.get_ticket`: normalize the id via `clean_text` +
uppercase, try local storage first, then the remote API. -/
def TicketRetriever.get_ticket (tickets : List Ticket) (username apiToken : Option Str)
    (remote : Str → ApiResult) (ticketId : Str) : Option Ticket :=
  let tid := (clean_text ticketId).map Char.toUpper
  match TicketRetriever.get_ticket_from_local tickets tid with
  | some t => some t
  | none => TicketRetriever.fetch_ticket_from_api username apiToken remote tid

/-- One article entry of `_generate_response`'s relevant-information block:
the header line `\n{idx}. **{title}** ({category})`, the body line with the
content truncated to 300 characters, and the literal `...` marker line when
the truncated content has length >= 300. -/
def agent_kb_entry (idx : Nat) (a : Article) : List Str :=
  let content := a.content.take 300
  ['\n' :: ((Nat.repr idx).toList ++ ". **".toList ++ a.title
      ++ "** (".toList ++ a.category ++ ")".toList),
   "   ".toList ++ content]
  ++ (if 300 ≤ content.length then ["   ...".toList] else [])

/-- The full relevant-information block of `_generate_response`: header, then
the entries for the first three results (1-based indices), then a blank part;
absent entirely when there are no results. -/
def agent_kb_block (results : List Article) : List Str :=
  if results.isEmpty then []
  else
    "**Relevant Information:**".toList ::
      ((List.enumFrom 1 (results.take 3)).flatMap (fun p => agent_kb_entry p.1 p.2)
        ++ [[]])

/-- An article whose content is exactly 300 characters long. -/
def cex_300_article : Article :=
  { id := "KB-1".toList
    title := "t".toList
    content := List.replicate 300 'a'
    category := "general".toList
    tags := []
    keywords := [] }

/-- An article whose title contains the query `password`. -/
def cex_password_article : Article :=
  { id := "KB-1".toList
    title := "password reset".toList
    content := "how to reset a password".toList
    category := "account".toList
    tags := []
    keywords := extract_keywords ("password reset how to reset a password".toList) }

/-- A decoy article whose title contains `cat` as a substring although `cat`
is not one of its keywords. -/
def cex_decoy_article : Article :=
  { id := "KB-0".toList
    title := "concat".toList
    content := []
    category := "general".toList
    tags := []
    keywords := extract_keywords ("concat ".toList) }

/-- Five decoys: each scores 10 on the query `cat` via the title substring
bonus. -/
def cex_decoy_store : List Article :=
  [cex_decoy_article, cex_decoy_article, cex_decoy_article,
   cex_decoy_article, cex_decoy_article]

/-- A ticket sharing exactly one keyword with the query
`alpha beta gamma` out of seven total, giving score 3/7. -/
def cex_low_score_ticket : Ticket :=
  { id := "T-1".toList
    title := "alpha delta epsilon zeta eta".toList
    description := []
    status := "Open".toList
    priority := "Low".toList }

attribute [local semireducible] Rat.add Rat.mul Rat.inv Rat.sub

theorem char_toNat_ofNat {n : Nat} (h : n < 55296) : (Char.ofNat n).toNat = n := by
  have hv : n.isValidChar := Or.inl h
  unfold Char.ofNat
  rw [dif_pos hv]
  rfl

theorem char_eq_of_toNat_eq {c d : Char} (h : c.toNat = d.toNat) : c = d := by
  calc c = Char.ofNat c.toNat := (Char.ofNat_toNat c).symm
    _ = Char.ofNat d.toNat := by rw [h]
    _ = d := Char.ofNat_toNat d

theorem char_toLower_toNat (c : Char) :
    (Char.toLower c).toNat = if 65 ≤ c.toNat ∧ c.toNat ≤ 90 then c.toNat + 32 else c.toNat := by
  unfold Char.toLower
  by_cases h : 65 ≤ c.toNat ∧ c.toNat ≤ 90
  · rw [if_pos h, if_pos h]
    exact char_toNat_ofNat (by omega)
  · rw [if_neg h, if_neg h]

theorem char_toUpper_toNat (c : Char) :
    (Char.toUpper c).toNat = if 97 ≤ c.toNat ∧ c.toNat ≤ 122 then c.toNat - 32 else c.toNat := by
  unfold Char.toUpper
  by_cases h : 97 ≤ c.toNat ∧ c.toNat ≤ 122
  · rw [if_pos h, if_pos h]
    exact char_toNat_ofNat (by omega)
  · rw [if_neg h, if_neg h]

theorem char_toLower_idem (c : Char) : (Char.toLower c).toLower = Char.toLower c := by
  apply char_eq_of_toNat_eq
  rw [char_toLower_toNat (Char.toLower c), char_toLower_toNat c]
  split_ifs <;> omega

theorem char_toUpper_toLower (c : Char) : (Char.toLower c).toUpper = Char.toUpper c := by
  apply char_eq_of_toNat_eq
  rw [char_toUpper_toNat (Char.toLower c), char_toUpper_toNat c, char_toLower_toNat c]
  split_ifs <;> omega

theorem char_isWhitespace_iff (c : Char) :
    c.isWhitespace = true ↔ c.toNat = 32 ∨ c.toNat = 9 ∨ c.toNat = 13 ∨ c.toNat = 10 := by
  simp only [Char.isWhitespace, Bool.or_eq_true, decide_eq_true_eq]
  constructor
  · rintro (((h | h) | h) | h) <;> rw [h] <;> simp
  · rintro (h | h | h | h)
    · exact Or.inl (Or.inl (Or.inl (char_eq_of_toNat_eq h)))
    · exact Or.inl (Or.inl (Or.inr (char_eq_of_toNat_eq h)))
    · exact Or.inl (Or.inr (char_eq_of_toNat_eq h))
    · exact Or.inr (char_eq_of_toNat_eq h)

theorem char_isWhitespace_toLower (c : Char) :
    (Char.toLower c).isWhitespace = c.isWhitespace := by
  rw [Bool.eq_iff_iff, char_isWhitespace_iff, char_isWhitespace_iff, char_toLower_toNat c]
  split_ifs <;> omega

theorem splitRunsAux_forall (p : Char → Bool) (Q : Char → Prop) :
    ∀ (l acc : List Char), (∀ c ∈ acc, p c = true ∧ Q c) → (∀ c ∈ l, Q c) →
      ∀ t ∈ splitRunsAux p l acc, t ≠ [] ∧ ∀ c ∈ t, p c = true ∧ Q c := by
  intro l
  induction l with
  | nil =>
    intro acc hacc _ t ht
    simp only [splitRunsAux] at ht
    by_cases hae : acc.isEmpty
    · rw [if_pos hae] at ht
      exact absurd ht (List.not_mem_nil t)
    · rw [if_neg hae] at ht
      rcases List.mem_singleton.mp ht with rfl
      refine ⟨?_, ?_⟩
      · simpa [List.isEmpty_iff] using hae
      · intro c hc
        exact hacc c (List.mem_reverse.mp hc)
  | cons c cs ih =>
    intro acc hacc hl t ht
    simp only [splitRunsAux] at ht
    by_cases hpc : p c
    · rw [if_pos hpc] at ht
      refine ih (c :: acc) ?_ (fun d hd => hl d (List.mem_cons_of_mem _ hd)) t ht
      intro d hd
      rcases List.mem_cons.mp hd with rfl | hd'
      · exact ⟨hpc, hl d (List.mem_cons_self _ _)⟩
      · exact hacc d hd'
    · rw [if_neg hpc] at ht
      by_cases hae : acc.isEmpty
      · rw [if_pos hae] at ht
        exact ih [] (by simp) (fun d hd => hl d (List.mem_cons_of_mem _ hd)) t ht
      · rw [if_neg hae] at ht
        rcases List.mem_cons.mp ht with rfl | ht'
        · refine ⟨?_, ?_⟩
          · simpa [List.isEmpty_iff] using hae
          · intro d hd
            exact hacc d (List.mem_reverse.mp hd)
        · exact ih [] (by simp) (fun d hd => hl d (List.mem_cons_of_mem _ hd)) t ht'

theorem splitRuns_forall (p : Char → Bool) (l : List Char) :
    ∀ t ∈ splitRuns p l, t ≠ [] ∧ ∀ c ∈ t, p c = true ∧ c ∈ l :=
  splitRunsAux_forall p (· ∈ l) l [] (by simp) (fun _ h => h)

theorem splitRunsAux_append (p : Char → Bool) :
    ∀ (t rest acc : List Char), (∀ c ∈ t, p c = true) →
      splitRunsAux p (t ++ rest) acc = splitRunsAux p rest (t.reverse ++ acc) := by
  intro t
  induction t with
  | nil => simp
  | cons c cs ih =>
    intro rest acc h
    simp only [List.cons_append, splitRunsAux]
    rw [if_pos (h c (List.mem_cons_self _ _))]
    show splitRunsAux p (cs ++ rest) (c :: acc) = splitRunsAux p rest ((c :: cs).reverse ++ acc)
    rw [ih rest (c :: acc) (fun d hd => h d (List.mem_cons_of_mem _ hd))]
    simp

theorem splitRuns_joinSep (p : Char → Bool) (sep : Char) (hsep : p sep = false) :
    ∀ ts : List Str, (∀ t ∈ ts, t ≠ [] ∧ ∀ c ∈ t, p c = true) →
      splitRuns p (joinSep sep ts) = ts := by
  intro ts
  induction ts with
  | nil => intro _; rfl
  | cons t ts ih =>
    intro h
    obtain ⟨htne, htp⟩ := h t (List.mem_cons_self _ _)
    cases ts with
    | nil =>
      show splitRunsAux p (joinSep sep [t]) [] = [t]
      rw [joinSep]
      have := splitRunsAux_append p t [] [] htp
      simp only [List.append_nil] at this
      rw [this]
      simp only [splitRunsAux]
      rw [if_neg (by simpa [List.isEmpty_iff] using htne)]
      simp
    | cons u ts' =>
      show splitRunsAux p (joinSep sep (t :: u :: ts')) [] = t :: u :: ts'
      rw [joinSep]
      rw [splitRunsAux_append p t (sep :: joinSep sep (u :: ts')) [] htp]
      simp only [splitRunsAux, List.append_nil]
      rw [if_neg (by simp [hsep]), if_neg (by simpa [List.isEmpty_iff] using htne)]
      rw [List.reverse_reverse]
      exact congrArg (t :: ·) (ih (fun v hv => h v (List.mem_cons_of_mem _ hv)))

theorem uniqAux_subset : ∀ (l seen : List Str), ∀ x ∈ uniqAux l seen, x ∈ l := by
  intro l
  induction l with
  | nil => intro seen x hx; exact absurd hx (List.not_mem_nil x)
  | cons y ys ih =>
    intro seen x hx
    simp only [uniqAux] at hx
    by_cases hy : y ∈ seen
    · rw [if_pos hy] at hx
      exact List.mem_cons_of_mem _ (ih seen x hx)
    · rw [if_neg hy] at hx
      rcases List.mem_cons.mp hx with rfl | hx'
      · exact List.mem_cons_self _ _
      · exact List.mem_cons_of_mem _ (ih (y :: seen) x hx')

theorem uniqAux_nodup : ∀ (l seen : List Str),
    (uniqAux l seen).Nodup ∧ ∀ x ∈ uniqAux l seen, x ∉ seen := by
  intro l
  induction l with
  | nil => intro seen; exact ⟨List.nodup_nil, by simp [uniqAux]⟩
  | cons y ys ih =>
    intro seen
    simp only [uniqAux]
    by_cases hy : y ∈ seen
    · rw [if_pos hy]
      exact ih seen
    · rw [if_neg hy]
      obtain ⟨hnd, hns⟩ := ih (y :: seen)
      refine ⟨List.nodup_cons.mpr ⟨?_, hnd⟩, ?_⟩
      · intro hmem
        exact hns y hmem (List.mem_cons_self _ _)
      · intro x hx
        rcases List.mem_cons.mp hx with rfl | hx'
        · exact hy
        · intro hxs
          exact hns x hx' (List.mem_cons_of_mem _ hxs)

theorem uniqAux_mem_of : ∀ (l seen : List Str) (x : Str), x ∈ l → x ∉ seen →
    x ∈ uniqAux l seen := by
  intro l
  induction l with
  | nil => intro seen x hx _; exact absurd hx (List.not_mem_nil x)
  | cons y ys ih =>
    intro seen x hx hxs
    simp only [uniqAux]
    by_cases hy : y ∈ seen
    · rw [if_pos hy]
      rcases List.mem_cons.mp hx with rfl | hx'
      · exact absurd hy hxs
      · exact ih seen x hx' hxs
    · rw [if_neg hy]
      rcases List.mem_cons.mp hx with rfl | hx'
      · exact List.mem_cons_self _ _
      · by_cases hxy : x = y
        · subst hxy; exact List.mem_cons_self _ _
        · refine List.mem_cons_of_mem _ (ih (y :: seen) x hx' ?_)
          intro hmem
          rcases List.mem_cons.mp hmem with h | h
          · exact hxy h
          · exact hxs h

theorem uniqueFirst_nodup (l : List Str) : (uniqueFirst l).Nodup :=
  (uniqAux_nodup l []).1

theorem mem_uniqueFirst {l : List Str} {x : Str} : x ∈ uniqueFirst l ↔ x ∈ l :=
  ⟨uniqAux_subset l [] x, fun h => uniqAux_mem_of l [] x h (List.not_mem_nil x)⟩

theorem uniqAux_eq_self : ∀ (l seen : List Str), l.Nodup → (∀ x ∈ l, x ∉ seen) →
    uniqAux l seen = l := by
  intro l
  induction l with
  | nil => intro seen _ _; rfl
  | cons y ys ih =>
    intro seen hnd hs
    simp only [uniqAux]
    rw [if_neg (hs y (List.mem_cons_self _ _))]
    refine congrArg (y :: ·) (ih (y :: seen) (List.nodup_cons.mp hnd).2 ?_)
    intro x hx hmem
    rcases List.mem_cons.mp hmem with rfl | h
    · exact (List.nodup_cons.mp hnd).1 hx
    · exact hs x (List.mem_cons_of_mem _ hx) h

theorem uniqueFirst_eq_self {l : List Str} (h : l.Nodup) : uniqueFirst l = l :=
  uniqAux_eq_self l [] h (fun x _ => List.not_mem_nil x)

theorem insertionSort_of_all_eq {α β : Type} [LinearOrder β] (key : α → β) :
    ∀ l : List α, (∀ a ∈ l, ∀ b ∈ l, key a = key b) →
      l.insertionSort (keyRelDesc key) = l := by
  intro l
  induction l with
  | nil => intro _; rfl
  | cons x xs ih =>
    intro h
    rw [List.insertionSort_cons]
    · rw [ih (fun a ha b hb => h a (List.mem_cons_of_mem _ ha) b (List.mem_cons_of_mem _ hb))]
    · intro b hb
      exact le_of_eq (h b (List.mem_cons_of_mem _ hb) x (List.mem_cons_self _ _))

theorem orderedInsert_pairwise_stable {α β : Type} [LinearOrder β] (key : α → β)
    (R : α → α → Prop) (x : α) :
    ∀ s : List α,
      s.Pairwise (fun a b => key b < key a ∨ (key a = key b ∧ R a b)) →
      (∀ b ∈ s, R x b) →
      (s.orderedInsert (keyRelDesc key) x).Pairwise
        (fun a b => key b < key a ∨ (key a = key b ∧ R a b)) := by
  intro s
  induction s with
  | nil => intro _ _; simp [List.orderedInsert]
  | cons b s' ih =>
    intro hp hr
    have hsorted : ∀ c ∈ b :: s', key c ≤ key b := by
      intro c hc
      rcases List.mem_cons.mp hc with rfl | hc'
      · exact le_refl _
      · rcases (List.pairwise_cons.mp hp).1 c hc' with h' | ⟨he, _⟩
        · exact le_of_lt h'
        · exact le_of_eq he.symm
    by_cases h : key b ≤ key x
    · rw [List.orderedInsert_of_le (keyRelDesc key) _ h]
      refine List.pairwise_cons.mpr ⟨?_, hp⟩
      intro c hc
      rcases lt_or_eq_of_le (le_trans (hsorted c hc) h) with h' | h'
      · exact Or.inl h'
      · exact Or.inr ⟨h'.symm, hr c hc⟩
    · have h' : ¬ keyRelDesc key x b := h
      simp only [List.orderedInsert, if_neg h']
      refine List.pairwise_cons.mpr ⟨?_, ?_⟩
      · intro c hc
        rcases (List.mem_orderedInsert _).mp hc with rfl | hc'
        · exact Or.inl (lt_of_not_le h)
        · exact (List.pairwise_cons.mp hp).1 c hc'
      · exact ih (List.pairwise_cons.mp hp).2 (fun c hc => hr c (List.mem_cons_of_mem _ hc))

theorem insertionSort_pairwise_stable {α β : Type} [LinearOrder β] (key : α → β)
    (R : α → α → Prop) :
    ∀ l : List α, l.Pairwise R →
      (l.insertionSort (keyRelDesc key)).Pairwise
        (fun a b => key b < key a ∨ (key a = key b ∧ R a b)) := by
  intro l
  induction l with
  | nil => intro _; simp
  | cons x xs ih =>
    intro hp
    show (List.orderedInsert _ x (xs.insertionSort (keyRelDesc key))).Pairwise _
    refine orderedInsert_pairwise_stable key R x _ (ih (List.pairwise_cons.mp hp).2) ?_
    intro b hb
    exact (List.pairwise_cons.mp hp).1 b ((List.mem_insertionSort _).mp hb)

theorem insertionSort_sorted_desc {α β : Type} [LinearOrder β] (key : α → β) (l : List α) :
    (l.insertionSort (keyRelDesc key)).Pairwise (fun a b => key b ≤ key a) := by
  refine (insertionSort_pairwise_stable key (fun _ _ => True) l
    (List.pairwise_of_forall (fun _ _ => trivial))).imp ?_
  rintro a b (h | ⟨he, _⟩)
  · exact le_of_lt h
  · exact le_of_eq he.symm

theorem map_snd_orderedInsert {α β : Type} [LinearOrder β] (key : α → β) (i : Nat) (x : α) :
    ∀ s : List (Nat × α), (∀ q ∈ s, i < q.1) →
      (s.orderedInsert (lexIdxRel key) (i, x)).map Prod.snd
        = (s.map Prod.snd).orderedInsert (keyRelDesc key) x := by
  intro s
  induction s with
  | nil => intro _; rfl
  | cons q s' ih =>
    intro hq
    obtain ⟨j, b⟩ := q
    have hij : i < j := hq (j, b) (List.mem_cons_self _ _)
    by_cases h : key b ≤ key x
    · have h1 : lexIdxRel key (i, x) (j, b) := by
        rcases lt_or_eq_of_le h with h' | h'
        · exact Or.inl h'
        · exact Or.inr ⟨h'.symm, le_of_lt hij⟩
      rw [List.orderedInsert_of_le (lexIdxRel key) _ h1]
      simp only [List.map_cons]
      rw [List.orderedInsert_of_le (keyRelDesc key) _ h]
    · have h1 : ¬ lexIdxRel key (i, x) (j, b) := by
        rintro (h' | ⟨he, _⟩)
        · exact h (le_of_lt h')
        · exact h (le_of_eq he.symm)
      simp only [List.orderedInsert, if_neg h1, if_neg h, List.map_cons]
      rw [ih (fun q' hq' => hq q' (List.mem_cons_of_mem _ hq'))]

theorem map_snd_insertionSort {α β : Type} [LinearOrder β] (key : α → β) :
    ∀ l : List (Nat × α), l.Pairwise (fun p q => p.1 < q.1) →
      (l.insertionSort (lexIdxRel key)).map Prod.snd
        = (l.map Prod.snd).insertionSort (keyRelDesc key) := by
  intro l
  induction l with
  | nil => intro _; rfl
  | cons p l' ih =>
    intro hp
    obtain ⟨i, x⟩ := p
    show ((List.insertionSort _ l').orderedInsert (lexIdxRel key) (i, x)).map Prod.snd = _
    rw [map_snd_orderedInsert key i x _ ?_, ih (List.pairwise_cons.mp hp).2]
    · rfl
    · intro q hq
      exact (List.pairwise_cons.mp hp).1 q ((List.mem_insertionSort _).mp hq)

theorem mem_enumFrom_fst_le {α : Type} : ∀ (n : Nat) (l : List α) (q : Nat × α),
    q ∈ List.enumFrom n l → n ≤ q.1 := by
  intro n l
  induction l generalizing n with
  | nil => intro q hq; exact absurd hq (List.not_mem_nil q)
  | cons x xs ih =>
    intro q hq
    rcases List.mem_cons.mp hq with rfl | hq'
    · exact le_refl _
    · exact le_of_lt (Nat.lt_of_lt_of_le (Nat.lt_succ_self n) (ih (n + 1) q hq'))

theorem enumFrom_pairwise_fst_lt {α : Type} : ∀ (n : Nat) (l : List α),
    (List.enumFrom n l).Pairwise (fun p q => p.1 < q.1) := by
  intro n l
  induction l generalizing n with
  | nil => exact List.Pairwise.nil
  | cons x xs ih =>
    refine List.pairwise_cons.mpr ⟨?_, ih (n + 1)⟩
    intro q hq
    exact Nat.lt_of_lt_of_le (Nat.lt_succ_self n) (mem_enumFrom_fst_le (n + 1) xs q hq)

theorem map_eq_self_of {α : Type} {l : List α} {f : α → α} (h : ∀ a ∈ l, f a = a) :
    l.map f = l := by
  rw [List.map_congr_left h]
  exact List.map_id' l

theorem mem_keyword_tokens {text : Str} {minLength : Nat} {w : Str}
    (hw : w ∈ keyword_tokens text minLength) :
    w ≠ [] ∧ (∀ c ∈ w, isWordChar c = true ∧ Char.toLower c = c) ∧
      minLength ≤ w.length ∧ w ∉ stop_words := by
  unfold keyword_tokens at hw
  obtain ⟨hmem, hfil⟩ := List.mem_filter.mp hw
  obtain ⟨hne, hch⟩ := splitRuns_forall isWordChar (text.map Char.toLower) w hmem
  obtain ⟨hlen, hsw⟩ := of_decide_eq_true hfil
  refine ⟨hne, ?_, hlen, hsw⟩
  intro c hc
  obtain ⟨hwc, hcm⟩ := hch c hc
  obtain ⟨c', _, rfl⟩ := List.mem_map.mp hcm
  exact ⟨hwc, char_toLower_idem c'⟩

theorem mem_extract_keywords_iff {text : Str} {minLength : Nat} {w : Str} :
    w ∈ extract_keywords text minLength ↔ w ∈ keyword_tokens text minLength := by
  unfold extract_keywords
  rw [List.mem_insertionSort, mem_uniqueFirst]

theorem extract_keywords_mem {text : Str} {minLength : Nat} {w : Str}
    (hw : w ∈ extract_keywords text minLength) :
    w ≠ [] ∧ (∀ c ∈ w, isWordChar c = true ∧ Char.toLower c = c) ∧
      minLength ≤ w.length ∧ w ∉ stop_words :=
  mem_keyword_tokens (mem_extract_keywords_iff.mp hw)

theorem extract_keywords_nodup (text : Str) (minLength : Nat) :
    (extract_keywords text minLength).Nodup := by
  unfold extract_keywords
  exact (List.perm_insertionSort _ _).nodup_iff.mpr (uniqueFirst_nodup _)

theorem map_joinSep (f : Char → Char) (sep : Char) :
    ∀ ts : List Str, (joinSep sep ts).map f = joinSep (f sep) (ts.map (List.map f)) := by
  intro ts
  induction ts with
  | nil => rfl
  | cons t ts ih =>
    cases ts with
    | nil => rfl
    | cons u ts' =>
      show (t ++ sep :: joinSep sep (u :: ts')).map f
        = t.map f ++ f sep :: joinSep (f sep) ((u :: ts').map (List.map f))
      rw [List.map_append, List.map_cons, ih]

theorem extract_keywords_eq (text : Str) (minLength : Nat) :
    extract_keywords text minLength
      = (uniqueFirst (keyword_tokens text minLength)).insertionSort
          (keyRelDesc (fun w => (keyword_tokens text minLength).count w)) := rfl

theorem keyword_tokens_joinSep {ts : List Str}
    (h : ∀ w ∈ ts, w ≠ [] ∧ (∀ c ∈ w, isWordChar c = true ∧ Char.toLower c = c) ∧
      3 ≤ w.length ∧ w ∉ stop_words) :
    keyword_tokens (joinSep ' ' ts) 3 = ts := by
  unfold keyword_tokens
  have hmap : (joinSep ' ' ts).map Char.toLower = joinSep ' ' ts := by
    rw [map_joinSep]
    have hsep : Char.toLower ' ' = ' ' := by decide
    rw [hsep]
    congr 1
    refine map_eq_self_of ?_
    intro w hw
    exact map_eq_self_of (fun c hc => ((h w hw).2.1 c hc).2)
  rw [hmap]
  rw [splitRuns_joinSep isWordChar ' ' (by decide) ts
    (fun w hw => ⟨(h w hw).1, fun c hc => ((h w hw).2.1 c hc).1⟩)]
  refine List.filter_eq_self.mpr ?_
  intro w hw
  exact decide_eq_true ⟨(h w hw).2.2.1, (h w hw).2.2.2⟩

theorem extract_keywords_single {w : Str}
    (hwc : ∀ c ∈ w, isWordChar c = true ∧ Char.toLower c = c)
    (hlen : 3 ≤ w.length) (hsw : w ∉ stop_words) :
    extract_keywords w = [w] := by
  have hne : w ≠ [] := by
    intro h
    rw [h] at hlen
    exact absurd hlen (by decide)
  have hkt : keyword_tokens w 3 = [w] := by
    have := @keyword_tokens_joinSep [w] ?_
    · simpa [joinSep] using this
    · intro v hv
      rcases List.mem_singleton.mp hv with rfl
      exact ⟨hne, hwc, hlen, hsw⟩
  rw [extract_keywords_eq w 3, hkt, uniqueFirst_eq_self (List.nodup_singleton w)]
  rfl

theorem count_eq_one_of_nodup_mem : ∀ {l : List Str} {a : Str}, l.Nodup → a ∈ l →
    l.count a = 1 := by
  intro l
  induction l with
  | nil => intro a _ ha; exact absurd ha (List.not_mem_nil a)
  | cons x xs ih =>
    intro a hnd ha
    rw [List.count_cons]
    rcases List.mem_cons.mp ha with rfl | ha'
    · rw [List.count_eq_zero.mpr (List.nodup_cons.mp hnd).1]
      simp
    · have hne : a ≠ x := by
        rintro rfl
        exact (List.nodup_cons.mp hnd).1 ha'
      rw [ih (List.nodup_cons.mp hnd).2 ha']
      simp [Ne.symm hne]

theorem extract_keywords_idem (text : Str) :
    extract_keywords (joinSep ' ' (extract_keywords text)) = extract_keywords text := by
  have hmem : ∀ w ∈ extract_keywords text, w ≠ [] ∧
      (∀ c ∈ w, isWordChar c = true ∧ Char.toLower c = c) ∧
      3 ≤ w.length ∧ w ∉ stop_words := fun w hw => extract_keywords_mem hw
  have hnd : (extract_keywords text).Nodup := extract_keywords_nodup text 3
  have hkt : keyword_tokens (joinSep ' ' (extract_keywords text)) 3 = extract_keywords text :=
    keyword_tokens_joinSep hmem
  rw [extract_keywords_eq (joinSep ' ' (extract_keywords text)) 3, hkt,
    uniqueFirst_eq_self hnd]
  refine insertionSort_of_all_eq _ _ ?_
  intro a ha b hb
  rw [count_eq_one_of_nodup_mem hnd ha, count_eq_one_of_nodup_mem hnd hb]

theorem calculate_similarity_nonneg (t1 t2 : Str) : 0 ≤ calculate_similarity t1 t2 := by
  simp only [calculate_similarity]
  split_ifs
  · exact le_refl 0
  · exact le_refl 0
  · exact div_nonneg (Nat.cast_nonneg _) (Nat.cast_nonneg _)

theorem calculate_similarity_le_one (t1 t2 : Str) : calculate_similarity t1 t2 ≤ 1 := by
  simp only [calculate_similarity]
  split_ifs with h1 h2
  · exact zero_le_one
  · exact zero_le_one
  · have hsub : ((extract_keywords t1).toFinset ∩ (extract_keywords t2).toFinset)
        ⊆ ((extract_keywords t1).toFinset ∪ (extract_keywords t2).toFinset) :=
      Finset.inter_subset_left.trans Finset.subset_union_left
    have hpos : (0 : ℚ) <
        (((extract_keywords t1).toFinset ∪ (extract_keywords t2).toFinset).card : ℚ) := by
      have := Finset.card_pos.mpr (Finset.nonempty_iff_ne_empty.mpr h2)
      exact_mod_cast this
    refine (div_le_one hpos).mpr ?_
    exact_mod_cast Finset.card_le_card hsub

theorem calculate_similarity_empty {t1 t2 : Str}
    (h : (extract_keywords t1).toFinset = ∅ ∨ (extract_keywords t2).toFinset = ∅) :
    calculate_similarity t1 t2 = 0 := by
  simp only [calculate_similarity]
  rw [if_pos h]

theorem calculate_similarity_of_ne {t1 t2 : Str}
    (h1 : (extract_keywords t1).toFinset ≠ ∅) (h2 : (extract_keywords t2).toFinset ≠ ∅) :
    calculate_similarity t1 t2
      = ((((extract_keywords t1).toFinset ∩ (extract_keywords t2).toFinset).card : ℚ)
        / (((extract_keywords t1).toFinset ∪ (extract_keywords t2).toFinset).card : ℚ)) := by
  simp only [calculate_similarity]
  rw [if_neg (by tauto)]
  rw [if_neg ?_]
  intro hu
  refine h1 (Finset.subset_empty.mp ?_)
  rw [← hu]
  exact Finset.subset_union_left

theorem calculate_similarity_self {x : Str} (h : (extract_keywords x).toFinset ≠ ∅) :
    calculate_similarity x x = 1 := by
  rw [calculate_similarity_of_ne h h, Finset.inter_self, Finset.union_self]
  have hpos : ((extract_keywords x).toFinset.card : ℚ) ≠ 0 := by
    have hc := Finset.card_pos.mpr (Finset.nonempty_iff_ne_empty.mpr h)
    have : (extract_keywords x).toFinset.card ≠ 0 := Nat.pos_iff_ne_zero.mp hc
    exact_mod_cast this
  exact div_self hpos

/-- C7: `extractKeywords` is idempotent — re-extracting from the space-joined
output yields the same list — and its output is a list of unique lowercase
tokens of length ≥ 3 excluding the fixed stop-word set, ordered by descending
frequency in the token list. -/
theorem extract_keywords_idempotent_spec :
    (∀ text : Str,
      extract_keywords (joinSep ' ' (extract_keywords text)) = extract_keywords text)
    ∧ (∀ text : Str, (extract_keywords text).Nodup)
    ∧ (∀ (text w : Str), w ∈ extract_keywords text →
        3 ≤ w.length ∧ w ∉ stop_words ∧ w.map Char.toLower = w)
    ∧ (∀ text : Str, (extract_keywords text).Pairwise
        (fun a b => (keyword_tokens text 3).count b ≤ (keyword_tokens text 3).count a)) := by
  refine ⟨extract_keywords_idem, fun text => extract_keywords_nodup text 3, ?_, ?_⟩
  · intro text w hw
    obtain ⟨_, hch, hlen, hsw⟩ := extract_keywords_mem hw
    exact ⟨hlen, hsw, map_eq_self_of (fun c hc => (hch c hc).2)⟩
  · intro text
    rw [extract_keywords_eq text 3]
    exact insertionSort_sorted_desc _ _

/-- Witness for C7 at a concrete text. -/
theorem extract_keywords_idempotent_spec_witness :
    (extract_keywords (joinSep ' ' (extract_keywords ("the cat sat on the mat with a cat".toList)))
      = extract_keywords ("the cat sat on the mat with a cat".toList))
    ∧ (3 ≤ ("cat".toList : Str).length ∧ "cat".toList ∉ stop_words
        ∧ ("cat".toList : Str).map Char.toLower = "cat".toList) :=
  ⟨extract_keywords_idempotent_spec.1 _,
   extract_keywords_idempotent_spec.2.2.1 ("the cat sat on the mat with a cat".toList)
     ("cat".toList) (by decide)⟩

/-- C3: `calculateSimilarity` equals the Jaccard index of the two texts'
deduplicated keyword sets, lies in [0,1], returns 0 whenever either keyword
set is empty, and returns 1 on any text with a non-empty keyword set compared
with itself. -/
theorem calculate_similarity_spec :
    (∀ t1 t2 : Str, 0 ≤ calculate_similarity t1 t2 ∧ calculate_similarity t1 t2 ≤ 1)
    ∧ (∀ t1 t2 : Str,
        (extract_keywords t1).toFinset = ∅ ∨ (extract_keywords t2).toFinset = ∅ →
        calculate_similarity t1 t2 = 0)
    ∧ (∀ t1 t2 : Str,
        (extract_keywords t1).toFinset ≠ ∅ → (extract_keywords t2).toFinset ≠ ∅ →
        calculate_similarity t1 t2
          = (((extract_keywords t1).toFinset ∩ (extract_keywords t2).toFinset).card : ℚ)
            / (((extract_keywords t1).toFinset ∪ (extract_keywords t2).toFinset).card : ℚ))
    ∧ (∀ x : Str, (extract_keywords x).toFinset ≠ ∅ → calculate_similarity x x = 1) :=
  ⟨fun t1 t2 => ⟨calculate_similarity_nonneg t1 t2, calculate_similarity_le_one t1 t2⟩,
   fun _ _ h => calculate_similarity_empty h,
   fun _ _ h1 h2 => calculate_similarity_of_ne h1 h2,
   fun _ h => calculate_similarity_self h⟩

/-- Witness for C3 at concrete texts. -/
theorem calculate_similarity_spec_witness :
    (0 ≤ calculate_similarity ("hello world".toList) ("world peace".toList)
      ∧ calculate_similarity ("hello world".toList) ("world peace".toList) ≤ 1)
    ∧ calculate_similarity ("the a is".toList) ("hello".toList) = 0
    ∧ calculate_similarity ("hello world".toList) ("hello world".toList) = 1 :=
  ⟨calculate_similarity_spec.1 _ _,
   calculate_similarity_spec.2.1 _ _ (Or.inl (by decide)),
   calculate_similarity_spec.2.2.2 _ (by decide)⟩

theorem substr_nil_left (l : Str) : substr [] l = true :=
  decide_eq_true List.nil_infix

theorem ticket_score_empty (t : Ticket) : ticket_score [] t = 17 := by
  simp only [ticket_score, List.map_nil, substr_nil_left, if_true]
  rw [calculate_similarity_empty (Or.inl (by decide))]
  norm_num

theorem search_tickets_empty_eq (tickets : List Ticket) (mr : Nat) :
    TicketRetriever.search_tickets tickets [] mr
      = (tickets.map (fun t => ⟨t, 17⟩)).take mr := by
  unfold TicketRetriever.search_tickets
  have hfun : (fun t : Ticket =>
      let s := ticket_score [] t
      if 0 < s then some (⟨t, s⟩ : ScoredTicket) else none)
      = (some ∘ fun t : Ticket => (⟨t, 17⟩ : ScoredTicket)) := by
    funext t
    simp only [ticket_score_empty]
    rw [if_pos (by norm_num)]
    rfl
  rw [hfun, List.filterMap_eq_map]
  show ((tickets.map (fun t => (⟨t, 17⟩ : ScoredTicket))).insertionSort
      (keyRelDesc ScoredTicket.score)).take mr
    = (tickets.map (fun t => (⟨t, 17⟩ : ScoredTicket))).take mr
  congr 1
  refine insertionSort_of_all_eq ScoredTicket.score _ ?_
  intro a ha b hb
  obtain ⟨ta, _, rfl⟩ := List.mem_map.mp ha
  obtain ⟨tb, _, rfl⟩ := List.mem_map.mp hb
  rfl

theorem search_tickets_mem {tickets : List Ticket} {query : Str} {mr : Nat}
    {r : ScoredTicket} (hr : r ∈ TicketRetriever.search_tickets tickets query mr) :
    r.score = ticket_score query r.ticket ∧ 0 < r.score ∧ r.ticket ∈ tickets := by
  unfold TicketRetriever.search_tickets at hr
  have hr' := List.mem_of_mem_take hr
  rw [List.mem_insertionSort] at hr'
  obtain ⟨t, ht, hf⟩ := List.mem_filterMap.mp hr'
  dsimp only at hf
  by_cases h : 0 < ticket_score query t
  · rw [if_pos h] at hf
    cases Option.some.inj hf
    exact ⟨rfl, h, ht⟩
  · rw [if_neg h] at hf
    exact absurd hf (Option.noConfusion)

theorem search_tickets_sorted (tickets : List Ticket) (query : Str) (mr : Nat) :
    (TicketRetriever.search_tickets tickets query mr).Pairwise
      (fun a b => b.score ≤ a.score) := by
  unfold TicketRetriever.search_tickets
  exact List.Pairwise.sublist (List.take_sublist _ _)
    (insertionSort_sorted_desc ScoredTicket.score _)

theorem search_tickets_length_le (tickets : List Ticket) (query : Str) (mr : Nat) :
    (TicketRetriever.search_tickets tickets query mr).length ≤ mr := by
  unfold TicketRetriever.search_tickets
  rw [List.length_take]
  exact min_le_left _ _

theorem search_tickets_complete {tickets : List Ticket} {query : Str} {mr : Nat}
    (hmr : tickets.length ≤ mr) {t : Ticket} (ht : t ∈ tickets)
    (hpos : 0 < ticket_score query t) :
    ∃ r ∈ TicketRetriever.search_tickets tickets query mr,
      r.ticket = t ∧ r.score = ticket_score query t := by
  unfold TicketRetriever.search_tickets
  have hlen : ((tickets.filterMap (fun t =>
      let s := ticket_score query t
      if 0 < s then some (⟨t, s⟩ : ScoredTicket) else none)).insertionSort
        (keyRelDesc ScoredTicket.score)).length ≤ mr := by
    rw [List.length_insertionSort]
    exact le_trans (List.length_filterMap_le _ _) hmr
  rw [List.take_of_length_le hlen]
  refine ⟨⟨t, ticket_score query t⟩, ?_, rfl, rfl⟩
  rw [List.mem_insertionSort]
  refine List.mem_filterMap.mpr ⟨t, ht, ?_⟩
  dsimp only
  rw [if_pos hpos]

/-- C2: `searchTickets` scores each ticket by the composite substring/Jaccard
formula, keeps exactly the tickets with positive score (no similarity
threshold is applied — a score strictly below the configured 0.7 threshold is
still returned), sorts descending by score, and truncates to `maxResults`. -/
theorem search_tickets_spec :
    (∀ (tickets : List Ticket) (query : Str) (mr : Nat),
      (∀ r ∈ TicketRetriever.search_tickets tickets query mr,
        r.score = ticket_score query r.ticket ∧ 0 < r.score ∧ r.ticket ∈ tickets)
      ∧ (TicketRetriever.search_tickets tickets query mr).Pairwise
          (fun a b => b.score ≤ a.score)
      ∧ (TicketRetriever.search_tickets tickets query mr).length ≤ mr
      ∧ (tickets.length ≤ mr → ∀ t ∈ tickets, 0 < ticket_score query t →
          ∃ r ∈ TicketRetriever.search_tickets tickets query mr,
            r.ticket = t ∧ r.score = ticket_score query t))
    ∧ (∃ r ∈ TicketRetriever.search_tickets [cex_low_score_ticket]
          ("alpha beta gamma".toList) 10,
        0 < r.score ∧ r.score < defaultConfig.similarityThreshold) := by
  refine ⟨?_, ?_⟩
  · intro tickets query mr
    exact ⟨fun r hr => search_tickets_mem hr,
      search_tickets_sorted tickets query mr,
      search_tickets_length_le tickets query mr,
      fun hmr t ht hpos => search_tickets_complete hmr ht hpos⟩
  · decide

/-- Witness for C2 at a concrete ticket store and query. -/
theorem search_tickets_spec_witness :
    (∃ r ∈ TicketRetriever.search_tickets [cex_low_score_ticket]
        ("alpha beta gamma".toList) 10,
      r.ticket = cex_low_score_ticket
        ∧ r.score = ticket_score ("alpha beta gamma".toList) cex_low_score_ticket)
    ∧ ((⟨cex_low_score_ticket, 3/7⟩ : ScoredTicket).score
          = ticket_score ("alpha beta gamma".toList)
              (⟨cex_low_score_ticket, 3/7⟩ : ScoredTicket).ticket
        ∧ 0 < (⟨cex_low_score_ticket, 3/7⟩ : ScoredTicket).score
        ∧ (⟨cex_low_score_ticket, 3/7⟩ : ScoredTicket).ticket ∈ [cex_low_score_ticket]) :=
  ⟨(search_tickets_spec.1 [cex_low_score_ticket] ("alpha beta gamma".toList) 10).2.2.2
      (by decide) cex_low_score_ticket (by decide) (by decide),
   (search_tickets_spec.1 [cex_low_score_ticket] ("alpha beta gamma".toList) 10).1
      ⟨cex_low_score_ticket, 3/7⟩ (by decide)⟩

/-- C9: with the empty-string query, ticket search has no empty-query guard:
the empty string is a substring of every id, title and description, the
Jaccard term is 0, so every stored ticket scores exactly 17.0 and the result
is all tickets in stored order truncated to `maxResults` — in particular it
is non-empty whenever the store is non-empty and `maxResults` is positive. -/
theorem search_tickets_empty_query_spec :
    (∀ (tickets : List Ticket) (mr : Nat),
      TicketRetriever.search_tickets tickets [] mr
        = (tickets.map (fun t => ⟨t, 17⟩)).take mr)
    ∧ (∀ t : Ticket, ticket_score [] t = 17)
    ∧ (∀ (tickets : List Ticket) (mr : Nat), tickets ≠ [] → 0 < mr →
        TicketRetriever.search_tickets tickets [] mr ≠ []) := by
  refine ⟨search_tickets_empty_eq, ticket_score_empty, ?_⟩
  intro tickets mr hne hmr h
  rw [search_tickets_empty_eq] at h
  cases tickets with
  | nil => exact hne rfl
  | cons t ts =>
    cases mr with
    | zero => exact absurd hmr (by omega)
    | succ m => simp at h

/-- Witness for C9 at the seeded ticket store. -/
theorem search_tickets_empty_query_spec_witness :
    (TicketRetriever.search_tickets sample_tickets [] 10
      = (sample_tickets.map (fun t => ⟨t, 17⟩)).take 10)
    ∧ TicketRetriever.search_tickets sample_tickets [] 10 ≠ [] :=
  ⟨search_tickets_empty_query_spec.1 sample_tickets 10,
   search_tickets_empty_query_spec.2.2 sample_tickets 10 (by decide) (by decide)⟩

theorem kb_search_empty_query (cfg : Config) (articles : List Article) (m : Option Nat) :
    KnowledgeBase.search cfg articles [] m = [] := rfl

theorem kb_search_eq (cfg : Config) (articles : List Article) (query : Str)
    (m : Option Nat) (hq : query ≠ []) :
    KnowledgeBase.search cfg articles query m
      = ((((articles.filterMap (fun a =>
            let s := article_score query a
            if 0 < s then some (⟨a, s⟩ : ScoredArticle) else none)).insertionSort
              (keyRelDesc ScoredArticle.score)).filter
                (fun r => decide (cfg.similarityThreshold ≤ r.score))).take
                  (match m with
                   | none => cfg.maxSearchResults
                   | some k => if k = 0 then cfg.maxSearchResults else k)) := by
  unfold KnowledgeBase.search
  rw [if_neg (by simpa [List.isEmpty_iff] using hq)]

theorem kb_search_threshold {cfg : Config} {articles : List Article} {query : Str}
    {m : Option Nat} :
    ∀ r ∈ KnowledgeBase.search cfg articles query m,
      cfg.similarityThreshold ≤ r.score := by
  intro r hr
  by_cases hq : query = []
  · subst hq
    rw [kb_search_empty_query] at hr
    exact absurd hr (List.not_mem_nil r)
  · rw [kb_search_eq cfg articles query m hq] at hr
    have hr' := List.mem_of_mem_take hr
    exact of_decide_eq_true (List.mem_filter.mp hr').2

theorem kb_search_effective_cap {cfg : Config} {k : Nat} (hk : k ≠ 0) :
    (match (some k : Option Nat) with
     | none => cfg.maxSearchResults
     | some k' => if k' = 0 then cfg.maxSearchResults else k') = k := by
  show (if k = 0 then cfg.maxSearchResults else k) = k
  rw [if_neg hk]

theorem kb_search_length {cfg : Config} {articles : List Article} {query : Str}
    {k : Nat} (hk : k ≠ 0) :
    (KnowledgeBase.search cfg articles query (some k)).length ≤ k := by
  by_cases hq : query = []
  · subst hq
    rw [kb_search_empty_query]
    exact Nat.zero_le k
  · rw [kb_search_eq cfg articles query (some k) hq, kb_search_effective_cap hk,
      List.length_take]
    exact min_le_left _ _

theorem kb_search_sorted (cfg : Config) (articles : List Article) (query : Str)
    (m : Option Nat) :
    (KnowledgeBase.search cfg articles query m).Pairwise
      (fun a b => b.score ≤ a.score) := by
  by_cases hq : query = []
  · subst hq
    rw [kb_search_empty_query]
    exact List.Pairwise.nil
  · rw [kb_search_eq cfg articles query m hq]
    refine List.Pairwise.sublist (List.take_sublist _ _) ?_
    refine List.Pairwise.sublist (List.filter_sublist _) ?_
    exact insertionSort_sorted_desc ScoredArticle.score _

theorem stable_sort_eq_lex_sort (L : List ScoredArticle) :
    L.insertionSort (keyRelDesc ScoredArticle.score)
      = (L.enum.insertionSort (lexIdxRel ScoredArticle.score)).map Prod.snd := by
  have h1 := map_snd_insertionSort ScoredArticle.score L.enum
    (enumFrom_pairwise_fst_lt 0 L)
  have h2 : L.enum.map Prod.snd = L := List.enumFrom_map_snd 0 L
  rw [h2] at h1
  exact h1.symm

theorem kb_search_spec_ordered_eq (cfg : Config) (articles : List Article)
    (query : Str) (m : Option Nat) (hq : query ≠ []) :
    KnowledgeBase.search_spec_ordered cfg articles query m
      = (((((articles.filterMap (fun a =>
            let s := article_score query a
            if 0 < s then some (⟨a, s⟩ : ScoredArticle) else none)).enum.insertionSort
              (lexIdxRel ScoredArticle.score)).map Prod.snd).filter
                (fun r => decide (cfg.similarityThreshold ≤ r.score))).take
                  (match m with
                   | none => cfg.maxSearchResults
                   | some k => if k = 0 then cfg.maxSearchResults else k)) := by
  unfold KnowledgeBase.search_spec_ordered
  rw [if_neg (by simpa [List.isEmpty_iff] using hq)]

theorem kb_search_eq_spec_ordered (cfg : Config) (articles : List Article)
    (query : Str) (m : Option Nat) :
    KnowledgeBase.search cfg articles query m
      = KnowledgeBase.search_spec_ordered cfg articles query m := by
  by_cases hq : query = []
  · subst hq
    rfl
  · rw [kb_search_eq cfg articles query m hq,
      kb_search_spec_ordered_eq cfg articles query m hq, stable_sort_eq_lex_sort]

theorem kb_search_mem_article {cfg : Config} {articles : List Article} {query : Str}
    {m : Option Nat} :
    ∀ r ∈ KnowledgeBase.search cfg articles query m,
      r.article ∈ articles ∧ r.score = article_score query r.article ∧ 0 < r.score := by
  intro r hr
  by_cases hq : query = []
  · subst hq
    rw [kb_search_empty_query] at hr
    exact absurd hr (List.not_mem_nil r)
  · rw [kb_search_eq cfg articles query m hq] at hr
    have hr' := (List.mem_filter.mp (List.mem_of_mem_take hr)).1
    rw [List.mem_insertionSort] at hr'
    obtain ⟨a, ha, hf⟩ := List.mem_filterMap.mp hr'
    dsimp only at hf
    by_cases h : 0 < article_score query a
    · rw [if_pos h] at hf
      cases Option.some.inj hf
      exact ⟨ha, rfl, h⟩
    · rw [if_neg h] at hf
      exact absurd hf (Option.noConfusion)

/-- C1 (amended): for every store, query and `maxResults` k ≥ 1, article
search returns only entries scoring at least the configured similarity
threshold, at most k of them, in descending score order with ties kept in
original insertion-relative order (the stable sort equals the lexicographic
sort on index-tagged results), and the empty query returns the empty
sequence. For k = 0 the falsy value falls back to the configured default
cap instead (see the counterexample). -/
theorem kb_search_postcondition (cfg : Config) (articles : List Article)
    (query : Str) (k : Nat) (hk : 0 < k) :
    (∀ r ∈ KnowledgeBase.search cfg articles query (some k),
        cfg.similarityThreshold ≤ r.score)
    ∧ (KnowledgeBase.search cfg articles query (some k)).length ≤ k
    ∧ (KnowledgeBase.search cfg articles query (some k)).Pairwise
        (fun a b => b.score ≤ a.score)
    ∧ (∀ m, KnowledgeBase.search cfg articles query m
        = KnowledgeBase.search_spec_ordered cfg articles query m)
    ∧ KnowledgeBase.search cfg articles [] (some k) = [] :=
  ⟨kb_search_threshold,
   kb_search_length (Nat.pos_iff_ne_zero.mp hk),
   kb_search_sorted cfg articles query (some k),
   fun m => kb_search_eq_spec_ordered cfg articles query m,
   kb_search_empty_query cfg articles (some k)⟩

/-- C1 counterexample: with `maxResults = 0` (falsy in Python), search falls
back to the configured default cap and returns one entry, so the output is
not bounded by the requested `maxResults`. -/
theorem kb_search_zero_max_results_cex :
    ¬ ((KnowledgeBase.search defaultConfig [cex_password_article]
        ("password".toList) (some 0)).length ≤ 0) := by decide

/-- Witness for C1 (amended) at a concrete store, query and cap. -/
theorem kb_search_postcondition_witness :
    (KnowledgeBase.search defaultConfig [cex_password_article]
        ("password".toList) (some 5)).length ≤ 5
    ∧ KnowledgeBase.search defaultConfig [cex_password_article] [] (some 5) = []
    ∧ defaultConfig.similarityThreshold
        ≤ (⟨cex_password_article,
            article_score ("password".toList) cex_password_article⟩ : ScoredArticle).score :=
  ⟨(kb_search_postcondition defaultConfig [cex_password_article]
      ("password".toList) 5 (by decide)).2.1,
   (kb_search_postcondition defaultConfig [cex_password_article]
      ("password".toList) 5 (by decide)).2.2.2.2,
   (kb_search_postcondition defaultConfig [cex_password_article]
      ("password".toList) 5 (by decide)).1
      ⟨cex_password_article, article_score ("password".toList) cex_password_article⟩
      (by decide)⟩

/-- C10: article search is a pure query on the store — as a state transformer
it returns the store unchanged, every returned entry is a copy referencing a
stored article (the transient score lives only on the result, the `Article`
records carry no score field), and `get_all_articles` returns a snapshot that
is value-equal to the store. -/
theorem kb_search_frame (cfg : Config) (articles : List Article) (query : Str)
    (m : Option Nat) :
    (KnowledgeBase.search_with_state cfg articles query m).2 = articles
    ∧ (∀ r ∈ (KnowledgeBase.search_with_state cfg articles query m).1,
        r.article ∈ articles)
    ∧ KnowledgeBase.get_all_articles articles = articles :=
  ⟨rfl, fun r hr => (kb_search_mem_article r hr).1, rfl⟩

/-- Witness for C10 at a concrete store and query. -/
theorem kb_search_frame_witness :
    (KnowledgeBase.search_with_state defaultConfig [cex_password_article]
        ("password".toList) none).2 = [cex_password_article]
    ∧ (⟨cex_password_article,
        article_score ("password".toList) cex_password_article⟩ : ScoredArticle).article
        ∈ [cex_password_article]
    ∧ KnowledgeBase.get_all_articles [cex_password_article] = [cex_password_article] :=
  ⟨(kb_search_frame defaultConfig [cex_password_article] ("password".toList) none).1,
   (kb_search_frame defaultConfig [cex_password_article] ("password".toList) none).2.1
      ⟨cex_password_article, article_score ("password".toList) cex_password_article⟩
      (by decide),
   (kb_search_frame defaultConfig [cex_password_article] ("password".toList) none).2.2⟩

theorem article_score_ge_three {w : Str} {a : Article}
    (hq : extract_keywords w = [w]) (hw : w ∈ a.keywords) :
    3 ≤ article_score w a := by
  have hsim : 0 ≤ calculate_similarity w (a.title ++ ' ' :: a.content) :=
    calculate_similarity_nonneg _ _
  have hA : (extract_keywords w).toFinset = {w} := by rw [hq]; simp
  simp only [article_score]
  rw [hA]
  have hcond : ({w} : Finset Str).Nonempty ∧ (a.keywords.toFinset).Nonempty :=
    ⟨Finset.singleton_nonempty w, ⟨w, List.mem_toFinset.mpr hw⟩⟩
  rw [if_pos hcond]
  rw [Finset.singleton_inter_of_mem (List.mem_toFinset.mpr hw)]
  rw [Finset.card_singleton]
  norm_num
  split_ifs <;> linarith [hsim]

/-- C6 (amended): `addArticle` followed immediately by `search` on a keyword
of that article returns that article, provided the configured similarity
threshold is at most 3 (the keyword-overlap bonus guarantees score ≥ 3) and
`maxResults` is at least the store size after insertion, so that
higher-scoring articles cannot crowd the new article out of the truncated
result (see the counterexample for the default cap). -/
theorem add_article_search_roundtrip (cfg : Config) (articles : List Article)
    (title content category : Str) (tags : List Str) (w : Str) (k : Nat)
    (hthr : cfg.similarityThreshold ≤ 3)
    (hw : w ∈ extract_keywords (title ++ ' ' :: content))
    (hk : articles.length + 1 ≤ k) :
    ∃ r ∈ KnowledgeBase.search cfg
        (KnowledgeBase.add_article articles title content category tags) w (some k),
      r.article = KnowledgeBase.make_article articles title content category tags := by
  obtain ⟨hne, hch, hlen, hsw⟩ := extract_keywords_mem hw
  have hsingle : extract_keywords w = [w] := extract_keywords_single hch hlen hsw
  have hwkw : w ∈ (KnowledgeBase.make_article articles title content category tags).keywords := hw
  have hscore : 3 ≤ article_score w (KnowledgeBase.make_article articles title content category tags) :=
    article_score_ge_three hsingle hwkw
  have hpos : 0 < article_score w (KnowledgeBase.make_article articles title content category tags) := by
    linarith
  have hk0 : k ≠ 0 := by omega
  rw [kb_search_eq cfg _ w (some k) hne, kb_search_effective_cap hk0]
  have hstore : (KnowledgeBase.add_article articles title content category tags).length
      = articles.length + 1 := by
    simp [KnowledgeBase.add_article]
  have hcap : ((((KnowledgeBase.add_article articles title content category tags).filterMap
      (fun a => let s := article_score w a
                if 0 < s then some (⟨a, s⟩ : ScoredArticle) else none)).insertionSort
        (keyRelDesc ScoredArticle.score)).filter
          (fun r => decide (cfg.similarityThreshold ≤ r.score))).length ≤ k := by
    refine le_trans (List.length_filter_le _ _) ?_
    rw [List.length_insertionSort]
    refine le_trans (List.length_filterMap_le _ _) ?_
    rw [hstore]
    exact hk
  rw [List.take_of_length_le hcap]
  refine ⟨⟨KnowledgeBase.make_article articles title content category tags,
    article_score w (KnowledgeBase.make_article articles title content category tags)⟩,
    ?_, rfl⟩
  rw [List.mem_filter]
  constructor
  · rw [List.mem_insertionSort]
    refine List.mem_filterMap.mpr
      ⟨KnowledgeBase.make_article articles title content category tags, ?_, ?_⟩
    · exact List.mem_append_right _ (List.mem_singleton_self _)
    · dsimp only
      rw [if_pos hpos]
  · exact decide_eq_true (le_trans hthr hscore)

/-- C6 counterexample: with the default configuration (cap 5), five stored
articles whose titles contain `cat` as a substring (but not as a keyword)
each score 10 on the query `cat`, crowding out the freshly added article
(score 5.5) whose content contains the keyword `cat` uniquely — the
round-trip fails as universally stated. -/
theorem add_article_search_roundtrip_cex :
    ((KnowledgeBase.search defaultConfig
        (KnowledgeBase.add_article cex_decoy_store ("pets".toList) ("cat".toList)
          ("general".toList) []) ("cat".toList) none).map ScoredArticle.article).contains
      (KnowledgeBase.make_article cex_decoy_store ("pets".toList) ("cat".toList)
        ("general".toList) []) = false := by decide

/-- Witness for C6 (amended) at a concrete store, article and keyword. -/
theorem add_article_search_roundtrip_witness :
    ∃ r ∈ KnowledgeBase.search defaultConfig
        (KnowledgeBase.add_article [] ("pets".toList) ("cat".toList)
          ("general".toList) []) ("pets".toList) (some 1),
      r.article = KnowledgeBase.make_article [] ("pets".toList) ("cat".toList)
        ("general".toList) [] :=
  add_article_search_roundtrip defaultConfig [] ("pets".toList) ("cat".toList)
    ("general".toList) [] ("pets".toList) 1 (by norm_num [defaultConfig])
    (by decide) (by decide)

theorem char_isAlpha_iff (c : Char) :
    c.isAlpha = true ↔ (65 ≤ c.toNat ∧ c.toNat ≤ 90) ∨ (97 ≤ c.toNat ∧ c.toNat ≤ 122) := by
  have h65 : ((65 : UInt32) ≤ c.val) ↔ 65 ≤ c.toNat := by
    rw [UInt32.le_def, BitVec.le_def]; exact Iff.rfl
  have h90 : (c.val ≤ (90 : UInt32)) ↔ c.toNat ≤ 90 := by
    rw [UInt32.le_def, BitVec.le_def]; exact Iff.rfl
  have h97 : ((97 : UInt32) ≤ c.val) ↔ 97 ≤ c.toNat := by
    rw [UInt32.le_def, BitVec.le_def]; exact Iff.rfl
  have h122 : (c.val ≤ (122 : UInt32)) ↔ c.toNat ≤ 122 := by
    rw [UInt32.le_def, BitVec.le_def]; exact Iff.rfl
  simp only [Char.isAlpha, Char.isUpper, Char.isLower, Bool.or_eq_true, Bool.and_eq_true,
    decide_eq_true_eq, ge_iff_le, h65, h90, h97, h122]

theorem char_of_toLower_eq {c d : Char} (h : Char.toLower c = d) :
    c.toNat = d.toNat ∨ (d.toNat = c.toNat + 32 ∧ 65 ≤ c.toNat ∧ c.toNat ≤ 90) := by
  have hs := char_toLower_toNat c
  rw [h] at hs
  split_ifs at hs with hc
  · exact Or.inr ⟨hs, hc.1, hc.2⟩
  · exact Or.inl hs.symm

theorem takeWhile_append_all {p : Char → Bool} :
    ∀ (pre rest : List Char), (∀ c ∈ pre, p c = true) →
      (pre ++ rest).takeWhile p = pre ++ rest.takeWhile p := by
  intro pre
  induction pre with
  | nil => intro rest _; rfl
  | cons c cs ih =>
    intro rest h
    rw [List.cons_append, List.takeWhile_cons, h c (List.mem_cons_self _ _)]
    rw [ih rest (fun d hd => h d (List.mem_cons_of_mem _ hd))]
    rfl

theorem dropWhile_append_all {p : Char → Bool} :
    ∀ (pre rest : List Char), (∀ c ∈ pre, p c = true) →
      (pre ++ rest).dropWhile p = rest.dropWhile p := by
  intro pre
  induction pre with
  | nil => intro rest _; rfl
  | cons c cs ih =>
    intro rest h
    rw [List.cons_append, List.dropWhile_cons, h c (List.mem_cons_self _ _)]
    exact ih rest (fun d hd => h d (List.mem_cons_of_mem _ hd))

theorem tryJira_of_parts {l : Str} {pre dsrest : List Char}
    (hpre : ∀ c ∈ pre, Char.isAlpha c = true) (hne : pre ≠ [])
    (hl : l = pre ++ '-' :: dsrest)
    (hds : dsrest.takeWhile Char.isDigit ≠ []) : tryJira l ≠ none := by
  subst hl
  unfold tryJira
  have htw : (pre ++ '-' :: dsrest).takeWhile Char.isAlpha = pre := by
    rw [takeWhile_append_all pre _ hpre, List.takeWhile_cons]
    simp
  have hdw : (pre ++ '-' :: dsrest).dropWhile Char.isAlpha = '-' :: dsrest := by
    rw [dropWhile_append_all pre _ hpre, List.dropWhile_cons]
    simp
  rw [htw, hdw]
  rw [if_neg (by simpa [List.isEmpty_iff] using hne)]
  show (if (dsrest.takeWhile Char.isDigit).isEmpty = true then none
    else some (pre ++ '-' :: dsrest.takeWhile Char.isDigit)) ≠ none
  rw [if_neg (by simpa [List.isEmpty_iff] using hds)]
  simp

theorem findFirstMatch_some_exists {f : Str → Option Str} :
    ∀ {l m : Str}, findFirstMatch f l = some m →
      ∃ pre c cs, pre ++ (c :: cs) = l ∧ f (c :: cs) = some m := by
  intro l
  induction l with
  | nil => intro m h; exact absurd h (Option.noConfusion)
  | cons x xs ih =>
    intro m h
    rw [findFirstMatch] at h
    cases hf : f (x :: xs) with
    | some m' =>
      rw [hf] at h
      cases Option.some.inj h
      exact ⟨[], x, xs, rfl, hf⟩
    | none =>
      rw [hf] at h
      obtain ⟨pre, c, cs, heq, hfc⟩ := ih h
      exact ⟨x :: pre, c, cs, by rw [List.cons_append, heq], hfc⟩

theorem findFirstMatch_none_iff {f : Str → Option Str} :
    ∀ {l : Str}, findFirstMatch f l = none ↔
      ∀ pre c cs, pre ++ (c :: cs) = l → f (c :: cs) = none := by
  intro l
  induction l with
  | nil =>
    refine ⟨fun _ pre c cs heq => ?_, fun _ => rfl⟩
    exact absurd heq (by simp)
  | cons x xs ih =>
    rw [findFirstMatch]
    cases hf : f (x :: xs) with
    | some m' =>
      refine ⟨fun h => absurd h (Option.noConfusion), fun h => ?_⟩
      have := h [] x xs rfl
      rw [hf] at this
      exact absurd this (Option.noConfusion)
    | none =>
      rw [ih]
      constructor
      · intro h pre c cs heq
        cases pre with
        | nil =>
          cases List.cons.inj heq.symm |>.1
          cases List.cons.inj heq.symm |>.2
          exact hf
        | cons p pre' =>
          have heq' := List.cons.inj heq
          exact h pre' c cs heq'.2
      · intro h pre c cs heq
        exact h (x :: pre) c cs (by rw [List.cons_append, heq])

theorem tryHashJira_some {l m : Str} (h : tryHashJira l = some m) :
    ∃ rest m', l = '#' :: rest ∧ tryJira rest = some m' ∧ m = '#' :: m' := by
  unfold tryHashJira at h
  split at h
  · rename_i rest
    cases hjr : tryJira rest with
    | none => rw [hjr] at h; exact absurd h (Option.noConfusion)
    | some m' =>
      rw [hjr] at h
      cases Option.some.inj h
      exact ⟨rest, m', rfl, hjr, rfl⟩
  · exact absurd h (Option.noConfusion)

theorem tryTicketNum_some {l m : Str} (h : tryTicketNum l = some m) :
    (l.take 7).map Char.toLower = "ticket-".toList
      ∧ (l.drop 7).takeWhile Char.isDigit ≠ [] := by
  unfold tryTicketNum at h
  split_ifs at h with h1 h2
  exact ⟨h1, by simpa [List.isEmpty_iff] using h2⟩

theorem isAlpha_of_toLower_lower {c d : Char} (h : Char.toLower c = d)
    (hd : 97 ≤ d.toNat ∧ d.toNat ≤ 122) : Char.isAlpha c = true := by
  rw [char_isAlpha_iff]
  rcases char_of_toLower_eq h with h' | ⟨h', h1, h2⟩
  · exact Or.inr (by omega)
  · exact Or.inl (by omega)

theorem eq_of_toLower_eq_nonletter {c d : Char} (h : Char.toLower c = d)
    (hd : d.toNat < 97 ∨ 122 < d.toNat) : c = d := by
  rcases char_of_toLower_eq h with h' | ⟨h', h1, h2⟩
  · exact char_eq_of_toNat_eq h'
  · omega

theorem tryTicketNum_jira {l m : Str} (h : tryTicketNum l = some m) :
    tryJira l ≠ none := by
  obtain ⟨hmap, hds⟩ := tryTicketNum_some h
  have hlit : "ticket-".toList = ['t', 'i', 'c', 'k', 'e', 't', '-'] := rfl
  rw [hlit] at hmap
  rcases l with _ | ⟨c0, _ | ⟨c1, _ | ⟨c2, _ | ⟨c3, _ | ⟨c4, _ | ⟨c5, _ | ⟨c6, rest⟩⟩⟩⟩⟩⟩⟩
  · simp at hmap
  · simp at hmap
  · simp at hmap
  · simp at hmap
  · simp at hmap
  · simp at hmap
  · simp at hmap
  · have htake : (c0 :: c1 :: c2 :: c3 :: c4 :: c5 :: c6 :: rest).take 7
        = [c0, c1, c2, c3, c4, c5, c6] := rfl
    rw [htake] at hmap
    simp only [List.map_cons, List.map_nil, List.cons.injEq, and_true] at hmap
    obtain ⟨e0, e1, e2, e3, e4, e5, e6⟩ := hmap
    have hc6 : c6 = '-' := eq_of_toLower_eq_nonletter e6 (by decide)
    subst hc6
    have hdrop : ((c0 :: c1 :: c2 :: c3 :: c4 :: c5 :: '-' :: rest).drop 7) = rest := rfl
    rw [hdrop] at hds
    refine @tryJira_of_parts _ [c0, c1, c2, c3, c4, c5] rest
      ?_ (by simp) rfl hds
    intro c hc
    simp only [List.mem_cons, List.not_mem_nil, or_false] at hc
    rcases hc with rfl | rfl | rfl | rfl | rfl | rfl
    · exact isAlpha_of_toLower_lower e0 (by decide)
    · exact isAlpha_of_toLower_lower e1 (by decide)
    · exact isAlpha_of_toLower_lower e2 (by decide)
    · exact isAlpha_of_toLower_lower e3 (by decide)
    · exact isAlpha_of_toLower_lower e4 (by decide)
    · exact isAlpha_of_toLower_lower e5 (by decide)

theorem tryJira_no_hash {l m : Str} (h : tryJira l = some m) : ∀ c ∈ m, c ≠ '#' := by
  unfold tryJira at h
  split_ifs at h with h1
  split at h
  · rename_i rest
    split_ifs at h with h2
    cases Option.some.inj h
    intro c hc
    rcases List.mem_append.mp hc with hc' | hc'
    · intro hceq
      have := List.mem_takeWhile_imp hc'
      rw [hceq] at this
      exact absurd this (by decide)
    · rcases List.mem_cons.mp hc' with rfl | hc''
      · decide
      · intro hceq
        have := List.mem_takeWhile_imp hc''
        rw [hceq] at this
        exact absurd this (by decide)
  · exact absurd h (Option.noConfusion)

theorem tryJira_nil : tryJira [] = none := rfl

theorem hashJira_subsumed {text : Str} (h : findFirstMatch tryJira text = none) :
    findFirstMatch tryHashJira text = none := by
  rw [findFirstMatch_none_iff] at h ⊢
  intro pre c cs heq
  cases hh : tryHashJira (c :: cs) with
  | none => rfl
  | some m =>
    obtain ⟨rest, m', hl, hjr, _⟩ := tryHashJira_some hh
    obtain ⟨rfl, rfl⟩ := List.cons.inj hl
    cases cs with
    | nil =>
      rw [tryJira_nil] at hjr
      exact absurd hjr (Option.noConfusion)
    | cons c' cs' =>
      have hnone := h (pre ++ ['#']) c' cs' (by rw [← heq]; simp)
      rw [hnone] at hjr
      exact absurd hjr (Option.noConfusion)

theorem ticketNum_subsumed {text : Str} (h : findFirstMatch tryJira text = none) :
    findFirstMatch tryTicketNum text = none := by
  rw [findFirstMatch_none_iff] at h ⊢
  intro pre c cs heq
  cases ht : tryTicketNum (c :: cs) with
  | none => rfl
  | some m => exact absurd (h pre c cs heq) (tryTicketNum_jira ht)

/-- C4: the four ticket-reference patterns are tried in fixed priority order
with case-insensitive matching, and the first (leftmost) match of the first
matching pattern is returned uppercased with any leading `#` stripped; since
every `#LETTERS-DIGITS` and every `TICKET-DIGITS` match contains a
`LETTERS-DIGITS` match, the result always reduces to: the leftmost
`LETTERS-DIGITS` match uppercased, else the leftmost `#DIGITS` match with the
`#` stripped, else the empty string. The two concrete examples from the spec
hold. -/
theorem extract_ticket_reference_spec :
    (∀ text : Str, extract_ticket_reference text =
      (match findFirstMatch tryJira text with
       | some m => m.map Char.toUpper
       | none =>
         match findFirstMatch tryHashNum text with
         | some m => (m.filter (fun c => c != '#')).map Char.toUpper
         | none => []))
    ∧ extract_ticket_reference ("What's the status of ticket PROJ-1001?".toList)
        = "PROJ-1001".toList
    ∧ extract_ticket_reference ("no ticket here".toList) = [] := by
  refine ⟨?_, by decide, by decide⟩
  intro text
  unfold extract_ticket_reference
  cases h1 : findFirstMatch tryJira text with
  | some m =>
    show (m.filter (fun c => c != '#')).map Char.toUpper = m.map Char.toUpper
    obtain ⟨pre, c, cs, _, hf⟩ := findFirstMatch_some_exists h1
    have hnh := tryJira_no_hash hf
    rw [List.filter_eq_self.mpr (fun a ha => bne_iff_ne.mpr (hnh a ha))]
  | none =>
    rw [hashJira_subsumed h1, ticketNum_subsumed h1]

theorem splitRunsAux_map {p : Char → Bool} {f : Char → Char}
    (hf : ∀ c, p (f c) = p c) :
    ∀ (l acc : List Char),
      splitRunsAux p (l.map f) (acc.map f) = (splitRunsAux p l acc).map (List.map f) := by
  intro l
  induction l with
  | nil =>
    intro acc
    cases acc with
    | nil => rfl
    | cons a as =>
      simp [splitRunsAux, List.map_reverse]
  | cons c cs ih =>
    intro acc
    simp only [List.map_cons, splitRunsAux, hf c]
    by_cases hc : p c
    · rw [if_pos hc, if_pos hc]
      exact ih (c :: acc)
    · rw [if_neg hc, if_neg hc]
      cases acc with
      | nil =>
        simp only [List.map_nil, List.isEmpty_nil, if_true]
        exact ih []
      | cons a as =>
        simp only [List.map_cons, List.isEmpty_cons, if_false]
        rw [← List.map_cons f a as]
        have hrev : ((a :: as).map f).reverse = ((a :: as).reverse).map f := by
          rw [List.map_reverse]
        rw [hrev]
        have := ih []
        simp only [List.map_nil] at this
        rw [this]
        rfl

theorem splitRuns_map {p : Char → Bool} {f : Char → Char}
    (hf : ∀ c, p (f c) = p c) (l : List Char) :
    splitRuns p (l.map f) = (splitRuns p l).map (List.map f) := by
  have := splitRunsAux_map hf l []
  simpa [splitRuns] using this

theorem clean_text_map_toLower (s : Str) :
    clean_text (s.map Char.toLower) = (clean_text s).map Char.toLower := by
  unfold clean_text
  rw [splitRuns_map (fun c => by rw [char_isWhitespace_toLower]) s]
  rw [map_joinSep Char.toLower ' ']
  have hsp : Char.toLower ' ' = ' ' := rfl
  rw [hsp]

theorem map_toUpper_map_toLower (s : Str) :
    (s.map Char.toLower).map Char.toUpper = s.map Char.toUpper := by
  rw [List.map_map]
  exact List.map_congr_left (fun c _ => char_toUpper_toLower c)

theorem get_ticket_normalized (tickets : List Ticket) (u tok : Option Str)
    (remote : Str → ApiResult) (s : Str) :
    TicketRetriever.get_ticket tickets u tok remote (s.map Char.toLower)
      = TicketRetriever.get_ticket tickets u tok remote s := by
  unfold TicketRetriever.get_ticket
  rw [clean_text_map_toLower, map_toUpper_map_toLower]

theorem get_ticket_local_hit {tickets : List Ticket} {u tok : Option Str}
    {remote : Str → ApiResult} {s : Str} {t : Ticket}
    (hlocal : TicketRetriever.get_ticket_from_local tickets
      ((clean_text s).map Char.toUpper) = some t) :
    TicketRetriever.get_ticket tickets u tok remote s = some t := by
  unfold TicketRetriever.get_ticket
  show (match TicketRetriever.get_ticket_from_local tickets
      ((clean_text s).map Char.toUpper) with
    | some t' => some t'
    | none => TicketRetriever.fetch_ticket_from_api u tok remote
        ((clean_text s).map Char.toUpper)) = some t
  rw [hlocal]

theorem get_ticket_remote_miss {tickets : List Ticket} {u tok : Option Str}
    {remote : Str → ApiResult} {s : Str}
    (hlocal : TicketRetriever.get_ticket_from_local tickets
      ((clean_text s).map Char.toUpper) = none)
    (hfetch : TicketRetriever.fetch_ticket_from_api u tok remote
      ((clean_text s).map Char.toUpper) = none) :
    TicketRetriever.get_ticket tickets u tok remote s = none := by
  unfold TicketRetriever.get_ticket
  show (match TicketRetriever.get_ticket_from_local tickets
      ((clean_text s).map Char.toUpper) with
    | some t' => some t'
    | none => TicketRetriever.fetch_ticket_from_api u tok remote
        ((clean_text s).map Char.toUpper)) = none
  rw [hlocal]
  exact hfetch

theorem fetch_none_of_creds {u tok : Option Str} {remote : Str → ApiResult} {tid : Str}
    (hc : credentials_falsy u tok = true) :
    TicketRetriever.fetch_ticket_from_api u tok remote tid = none := by
  unfold TicketRetriever.fetch_ticket_from_api
  rw [if_pos hc]

theorem fetch_none_of_status {u tok : Option Str} {remote : Str → ApiResult} {tid : Str}
    {status : Nat} {body : JiraIssue}
    (hr : remote tid = ApiResult.httpResponse status body) (hs : status ≠ 200) :
    TicketRetriever.fetch_ticket_from_api u tok remote tid = none := by
  unfold TicketRetriever.fetch_ticket_from_api
  by_cases hc : credentials_falsy u tok
  · rw [if_pos hc]
  · rw [if_neg hc, hr]
    show (if status = 200 then some (TicketRetriever.transform_jira_response body)
      else none) = none
    rw [if_neg hs]

theorem fetch_none_of_exn {u tok : Option Str} {remote : Str → ApiResult} {tid : Str}
    (hr : remote tid = ApiResult.requestError) :
    TicketRetriever.fetch_ticket_from_api u tok remote tid = none := by
  unfold TicketRetriever.fetch_ticket_from_api
  by_cases hc : credentials_falsy u tok
  · rw [if_pos hc]
  · rw [if_neg hc, hr]

/-- C5: `getTicket` normalizes the id via `cleanText` plus uppercasing, making
lookup case-insensitive (the seeded id `PROJ-1001` resolves from
`proj-1001`); the local store is consulted first and on a hit the result does
not depend on the remote at all; and when the local store misses, every
remote failure shape — falsy credentials, a non-200 response, or a transport
error — yields an absent (`none`) result rather than an exception. -/
theorem get_ticket_spec :
    (∀ (tickets : List Ticket) (u tok : Option Str) (remote : Str → ApiResult) (s : Str),
      TicketRetriever.get_ticket tickets u tok remote (s.map Char.toLower)
        = TicketRetriever.get_ticket tickets u tok remote s)
    ∧ (∀ remote : Str → ApiResult,
        TicketRetriever.get_ticket sample_tickets none none remote ("proj-1001".toList)
          = some sample_ticket_1
        ∧ TicketRetriever.get_ticket sample_tickets none none remote ("PROJ-1001".toList)
          = some sample_ticket_1)
    ∧ (∀ (tickets : List Ticket) (u tok : Option Str) (r1 r2 : Str → ApiResult)
        (s : Str) (t : Ticket),
        TicketRetriever.get_ticket_from_local tickets ((clean_text s).map Char.toUpper)
          = some t →
        TicketRetriever.get_ticket tickets u tok r1 s = some t
        ∧ TicketRetriever.get_ticket tickets u tok r1 s
            = TicketRetriever.get_ticket tickets u tok r2 s)
    ∧ (∀ (tickets : List Ticket) (u tok : Option Str) (remote : Str → ApiResult) (s : Str),
        TicketRetriever.get_ticket_from_local tickets ((clean_text s).map Char.toUpper)
          = none →
        (credentials_falsy u tok = true →
          TicketRetriever.get_ticket tickets u tok remote s = none)
        ∧ (∀ (status : Nat) (body : JiraIssue),
            remote ((clean_text s).map Char.toUpper) = ApiResult.httpResponse status body →
            status ≠ 200 → TicketRetriever.get_ticket tickets u tok remote s = none)
        ∧ (remote ((clean_text s).map Char.toUpper) = ApiResult.requestError →
            TicketRetriever.get_ticket tickets u tok remote s = none)) := by
  refine ⟨get_ticket_normalized, fun remote => ⟨rfl, rfl⟩, ?_, ?_⟩
  · intro tickets u tok r1 r2 s t hlocal
    exact ⟨get_ticket_local_hit hlocal,
      (get_ticket_local_hit hlocal).trans (get_ticket_local_hit hlocal).symm⟩
  · intro tickets u tok remote s hlocal
    refine ⟨?_, ?_, ?_⟩
    · intro hc
      exact get_ticket_remote_miss hlocal (fetch_none_of_creds hc)
    · intro status body hr hs
      exact get_ticket_remote_miss hlocal (fetch_none_of_status hr hs)
    · intro hr
      exact get_ticket_remote_miss hlocal (fetch_none_of_exn hr)

/-- Witness for C5 at the seeded store with concrete remote behaviors. -/
theorem get_ticket_spec_witness :
    (TicketRetriever.get_ticket sample_tickets none none
        (fun _ => ApiResult.requestError) ("proj-1001".toList) = some sample_ticket_1)
    ∧ (TicketRetriever.get_ticket sample_tickets (some ("u".toList))
        (some ("tk".toList)) (fun _ => ApiResult.requestError) ("PROJ-1001".toList)
        = some sample_ticket_1
       ∧ TicketRetriever.get_ticket sample_tickets (some ("u".toList))
          (some ("tk".toList)) (fun _ => ApiResult.requestError) ("PROJ-1001".toList)
          = TicketRetriever.get_ticket sample_tickets (some ("u".toList))
            (some ("tk".toList))
            (fun _ => ApiResult.httpResponse 200
              ⟨"Z".toList, [], [], [], []⟩) ("PROJ-1001".toList))
    ∧ TicketRetriever.get_ticket sample_tickets none none
        (fun _ => ApiResult.requestError) ("ZZZ-9".toList) = none
    ∧ TicketRetriever.get_ticket sample_tickets (some ("u".toList)) (some ("tk".toList))
        (fun _ => ApiResult.httpResponse 404 ⟨"Z".toList, [], [], [], []⟩)
        ("ZZZ-9".toList) = none
    ∧ TicketRetriever.get_ticket sample_tickets (some ("u".toList)) (some ("tk".toList))
        (fun _ => ApiResult.requestError) ("ZZZ-9".toList) = none :=
  ⟨(get_ticket_spec.2.1 (fun _ => ApiResult.requestError)).1,
   get_ticket_spec.2.2.1 sample_tickets (some ("u".toList)) (some ("tk".toList))
     (fun _ => ApiResult.requestError)
     (fun _ => ApiResult.httpResponse 200 ⟨"Z".toList, [], [], [], []⟩)
     ("PROJ-1001".toList) sample_ticket_1 (by decide),
   ((get_ticket_spec.2.2.2 sample_tickets none none (fun _ => ApiResult.requestError)
     ("ZZZ-9".toList) (by decide)).1 (by decide)),
   ((get_ticket_spec.2.2.2 sample_tickets (some ("u".toList)) (some ("tk".toList))
     (fun _ => ApiResult.httpResponse 404 ⟨"Z".toList, [], [], [], []⟩)
     ("ZZZ-9".toList) (by decide)).2.1 404 ⟨"Z".toList, [], [], [], []⟩ rfl (by decide)),
   ((get_ticket_spec.2.2.2 sample_tickets (some ("u".toList)) (some ("tk".toList))
     (fun _ => ApiResult.requestError) ("ZZZ-9".toList) (by decide)).2.2 rfl)⟩

/-- C8 (amended): each listed article entry shows the title and category in
its header line and the content truncated to 300 characters in its body
line; the literal `...` marker line is appended exactly when the truncated
content has length ≥ 300, i.e. iff the original content has at least 300
characters — at exactly 300 characters the marker appears although nothing
was cut. The block lists only the first three results. -/
theorem agent_kb_entry_truncation :
    (∀ (idx : Nat) (a : Article),
      (agent_kb_entry idx a).drop 2
        = (if 300 ≤ a.content.length then ["   ...".toList] else []))
    ∧ (∀ (idx : Nat) (a : Article),
        (agent_kb_entry idx a).get? 1 = some ("   ".toList ++ a.content.take 300))
    ∧ (∀ (idx : Nat) (a : Article), ∃ l ∈ agent_kb_entry idx a,
        substr a.title l = true ∧ substr a.category l = true)
    ∧ (∀ results : List Article, agent_kb_block results = agent_kb_block (results.take 3)) := by
  refine ⟨?_, ?_, ?_, ?_⟩
  · intro idx a
    show (if 300 ≤ (a.content.take 300).length then ["   ...".toList] else [])
      = (if 300 ≤ a.content.length then ["   ...".toList] else [])
    refine if_congr ?_ rfl rfl
    rw [List.length_take]
    omega
  · intro idx a
    rfl
  · intro idx a
    refine ⟨'\n' :: ((Nat.repr idx).toList ++ ". **".toList ++ a.title
      ++ "** (".toList ++ a.category ++ ")".toList), List.mem_cons_self _ _, ?_, ?_⟩
    · refine decide_eq_true ?_
      exact ⟨'\n' :: ((Nat.repr idx).toList ++ ". **".toList),
        "** (".toList ++ a.category ++ ")".toList, by simp⟩
    · refine decide_eq_true ?_
      exact ⟨'\n' :: ((Nat.repr idx).toList ++ ". **".toList ++ a.title ++ "** (".toList),
        ")".toList, by simp⟩
  · intro results
    unfold agent_kb_block
    have h1 : (results.take 3).isEmpty = results.isEmpty := by
      cases results <;> rfl
    rw [h1, List.take_take]
    norm_num

set_option maxRecDepth 4000 in
/-- C8 counterexample: for a content of exactly 300 characters the `...`
marker is appended although the content was not truncated (it does not
exceed 300 characters). -/
theorem agent_kb_entry_truncation_cex :
    (agent_kb_entry 1 cex_300_article).drop 2 = ["   ...".toList]
    ∧ ¬ (300 < cex_300_article.content.length) := by
  constructor
  · decide
  · decide
